import Mathlib

/-!
Verification of the embedding interface declared in `src/cyber.h` (the Cyber
scripting VM's C boundary).  Machine integers are modelled as `Nat` with
explicit range predicates; the header's declarations are embedded directly,
and behaviour that lives behind the opaque `CyUserVM*` handle (the compiler
pipeline, the module registrar's runtime, the diagnostic buffer) is modelled
from the specification, as marked on each such definition.
-/

namespace Cyber

/-- An 8-bit unsigned machine integer (`uint8_t`) holds naturals below 2^8. -/
def uint8Range (n : Nat) : Prop := n < 2 ^ 8

/-- A 32-bit unsigned machine integer (`uint32_t`) holds naturals below 2^32. -/
def uint32Range (n : Nat) : Prop := n < 2 ^ 32

/-- A 64-bit unsigned machine integer (`uint64_t`) holds naturals below 2^64. -/
def uint64Range (n : Nat) : Prop := n < 2 ^ 64

instance (n : Nat) : Decidable (uint8Range n) := by unfold uint8Range; infer_instance

instance (n : Nat) : Decidable (uint32Range n) := by unfold uint32Range; infer_instance

instance (n : Nat) : Decidable (uint64Range n) := by unfold uint64Range; infer_instance

/-- `const uint32_t CY_NullId = UINT32_MAX;` — the null sentinel for absent
u32 identifiers. -/
def CY_NullId : Nat := 2 ^ 32 - 1

/-- The `CyResultCode` enum of `cyber.h`: six enumerators, first one
explicitly `= 0`, the rest taking successive values per C enum rules. -/
inductive CyResultCode where
  | CY_Success
  | CY_ErrorToken
  | CY_ErrorParse
  | CY_ErrorCompile
  | CY_ErrorPanic
  | CY_ErrorUnknown
deriving DecidableEq, Fintype, Repr

/-- Numeric value of each `CyResultCode` enumerator under C's enumeration
rules (`CY_Success = 0`, each following enumerator one greater). -/
def CyResultCode.toC : CyResultCode → Nat
  | .CY_Success => 0
  | .CY_ErrorToken => 1
  | .CY_ErrorParse => 2
  | .CY_ErrorCompile => 3
  | .CY_ErrorPanic => 4
  | .CY_ErrorUnknown => 5

/-- `typedef uint64_t CyValue;` — the tagged value is a 64-bit datum.  We
model the bit pattern as a `Nat`; `uint64Range` tracks the width. -/
abbrev CyValue := Nat

/-- C `strlen` on a byte buffer: the number of bytes before the first NUL.
(On a buffer with no NUL byte, real `strlen` is undefined behaviour; the
model then returns the buffer length.) -/
def strlen : List Nat → Nat
  | [] => 0
  | b :: t => if b = 0 then 0 else strlen t + 1

/-- The `CStr` struct of `cyber.h`: a byte buffer (`char* charz`, modelled as
the list of bytes the pointer gives access to) and a length (`size_t len`). -/
structure CStr where
  charz : List Nat
  len : Nat
deriving DecidableEq, Repr

/-- The `cstr(X)` constructor of `cyber.h`:
`#define cstr(X) (CStr){ X, strlen(X) }`. -/
def cstr (X : List Nat) : CStr := ⟨X, strlen X⟩

/-- Bit pattern of IEEE-754 double precision positive infinity. -/
def posInfBits : Nat := 0x7FF0000000000000

/-- Bit pattern of IEEE-754 double precision negative infinity. -/
def negInfBits : Nat := 0xFFF0000000000000

/-- Bit pattern of the canonical IEEE-754 quiet NaN. -/
def canonicalQNaNBits : Nat := 0x7FF8000000000000

/-- The 11-bit exponent field of a double's 64-bit pattern. -/
def expField (d : Nat) : Nat := d / 2 ^ 52 % 2 ^ 11

/-- A 64-bit pattern encodes a finite double iff its exponent field is not
all ones. -/
def isFiniteDouble (d : Nat) : Prop := d < 2 ^ 64 ∧ expField d ≠ 0x7FF

instance (d : Nat) : Decidable (isFiniteDouble d) := by unfold isFiniteDouble; infer_instance

/-- Modelled from the spec: the body of `cyValueNone` is not in this
repository (the value encoding lives behind the opaque VM).  The spec says
the encoding is classically NaN-boxed: non-number variants are discriminated
inside the quiet-NaN payload space.  `none` gets a tagged quiet-NaN pattern
distinct from the canonical quiet NaN. -/
def cyValueNone : CyValue := 0x7FFC000000000000

/-- Modelled from the spec: the body of `cyValueTrue` is not in this
repository; a NaN-boxed tag distinct from `none` and `false`. -/
def cyValueTrue : CyValue := 0x7FFC000000000001

/-- Modelled from the spec: the body of `cyValueFalse` is not in this
repository; a NaN-boxed tag distinct from `none` and `true`. -/
def cyValueFalse : CyValue := 0x7FFC000000000002

/-- Modelled from the spec: the body of `cyValueNumber` is not in this
repository.  Under NaN-boxing a number is stored as its own 64-bit double
bit pattern, so the constructor preserves the pattern exactly (reduced into
the 64-bit range, since the C type is `uint64_t`). -/
def cyValueNumber (d : Nat) : CyValue := d % 2 ^ 64

/-- Modelled from the spec: the body of `cyValueAsDouble` is not in this
repository.  On a value known to encode a number the accessor returns the
stored double bit pattern unchanged. -/
def cyValueAsDouble (v : CyValue) : Nat := v % 2 ^ 64

/-- A call made by the VM into a registered native function, per
`typedef CyValue (*CyFunc)(CyUserVM* vm, CyValue* args, uint8_t nargs);` —
the argument count crosses the boundary as a `uint8_t`. -/
structure CyFuncInvocation where
  args : List CyValue
  nargs : Nat
  nargs_uint8 : nargs < 2 ^ 8

/-- A registration made through
`cyVmSetModuleFunc(vm, mod, name, uint32_t numParams, func)` — the declared
arity crosses the boundary as a `uint32_t`. -/
structure ModuleFuncReg where
  name : List Nat
  numParams : Nat
  numParams_uint32 : numParams < 2 ^ 32

/-! ### Module registrar state machine

Modelled from the spec: the registrar's runtime lives behind the opaque VM
handle; only `cyVmAddModuleLoader` and `CyLoadModuleFunc` are declared in
`cyber.h`.  The spec gives the state machine of a module name (unregistered,
registered-unloaded, loading, loaded) with the loader invoked at most once
per VM instance, lazily on first import. -/

/-- Registration state of one module name on one VM handle. -/
inductive ModState where
  | unregistered
  | registered
  | loaded
deriving DecidableEq, Repr

/-- Host/script operations that drive the registrar: the host registers a
loader for a name; the script imports a name. -/
inductive MOp where
  | addLoader (name : List Nat)
  | importMod (name : List Nat)

/-- Observable events of the registrar: the VM invoking a registered loader
callback, and a script-level access of the module. -/
inductive MEvent where
  | loaderFired (name : List Nat)
  | scriptAccess (name : List Nat)
deriving DecidableEq, Repr

/-- Modelled from the spec: one registrar transition.  `cyVmAddModuleLoader`
moves an unregistered name to registered.  An import of a registered name
invokes the loader (exactly here, lazily) and the script then accesses the
loaded module; an import of a loaded name resolves from the cache; importing
an unregistered name fails at compile time with no access. -/
def mstep (st : List Nat → ModState) : MOp → (List Nat → ModState) × List MEvent
  | .addLoader m =>
      (fun p => if p = m ∧ st m = ModState.unregistered then ModState.registered else st p, [])
  | .importMod m =>
      match st m with
      | ModState.unregistered => (st, [])
      | ModState.registered =>
          (fun p => if p = m then ModState.loaded else st p,
           [MEvent.loaderFired m, MEvent.scriptAccess m])
      | ModState.loaded => (st, [MEvent.scriptAccess m])

/-- Run a sequence of registrar operations, collecting the event trace. -/
def runOps (st : List Nat → ModState) : List MOp → (List Nat → ModState) × List MEvent
  | [] => (st, [])
  | op :: ops =>
      ((runOps (mstep st op).1 ops).1, (mstep st op).2 ++ (runOps (mstep st op).1 ops).2)

/-- Number of loader invocations for module `n` in a trace. -/
def firedCount (n : List Nat) : List MEvent → Nat
  | [] => 0
  | .loaderFired m :: t => (if m = n then 1 else 0) + firedCount n t
  | .scriptAccess _ :: t => firedCount n t

/-- `accessOk n seen tr` holds when every script access of module `n` in
`tr` is strictly preceded by a loader invocation for `n` (or the loader had
already fired before `tr`, recorded by `seen`). -/
def accessOk (n : List Nat) (seen : Bool) : List MEvent → Bool
  | [] => true
  | .loaderFired m :: t => accessOk n (if m = n then true else seen) t
  | .scriptAccess m :: t => (if m = n then seen else true) && accessOk n seen t

/-! ### Evaluator and diagnostic model

Modelled from the spec: `cyVmEval`'s pipeline (tokenize, parse, compile,
execute) and the diagnostic buffer live behind the opaque VM handle; only
the declarations are in `cyber.h`.  The model keeps the pipeline abstract —
front end and executor are parameters — and fixes only what the spec
states: which result code each failure class yields, that static failures
happen before any execution, and that every failure records a non-empty
human-readable report that survives until the next eval. -/

/-- Outcome of the static front end (tokenize, parse, compile) on a source
buffer: one of the three static failures, each with a diagnostic message,
or a compiled program (opaque to the boundary). -/
inductive FrontendResult where
  | tokenErr (msg : List Nat)
  | parseErr (msg : List Nat)
  | compileErr (msg : List Nat)
  | prog (p : List Nat)

/-- Outcome of executing a compiled program: a result value, a runtime
panic, or an unclassifiable internal failure. -/
inductive ExecOutcome where
  | value (v : CyValue)
  | panicked (msg : List Nat)
  | unknownErr (msg : List Nat)

/-- The observable state of one VM handle: its persistent global
environment, the diagnostic report buffer, a count of program executions
(instrumentation for "rejected before any execution began"), the registered
loader names, and the allocator byte balance. -/
structure VMState where
  env : List (List Nat × CyValue)
  lastErrorReport : List Nat
  execs : Nat
  loaders : List (List Nat)
  allocBytes : Nat
deriving DecidableEq, Repr

/-- Modelled from the spec: the recorded diagnostic is a non-empty
human-readable string; modelled as the bytes of "error: " followed by the
pipeline's message. -/
def mkReport (msg : List Nat) : List Nat :=
  [101, 114, 114, 111, 114, 58, 32] ++ msg

/-- Modelled from the spec: `cyVmEval`.  The front end classifies the source
first; a static failure yields its result code and records the diagnostic
without touching the global environment or executing anything.  Otherwise
the program runs in the persistent global environment: a value yields
`CY_Success` with the out-value set, a panic or unknown failure yields the
corresponding code, records the diagnostic, and may leave partial effects
on the environment. -/
def cyVmEval (frontend : List Nat → FrontendResult)
    (exec : List (List Nat × CyValue) → List Nat → ExecOutcome × List (List Nat × CyValue))
    (vm : VMState) (src : List Nat) : CyResultCode × VMState × Option CyValue :=
  match frontend src with
  | .tokenErr m => (.CY_ErrorToken, { vm with lastErrorReport := mkReport m }, none)
  | .parseErr m => (.CY_ErrorParse, { vm with lastErrorReport := mkReport m }, none)
  | .compileErr m => (.CY_ErrorCompile, { vm with lastErrorReport := mkReport m }, none)
  | .prog p =>
      match exec vm.env p with
      | (.value v, env2) =>
          (.CY_Success, { vm with env := env2, execs := vm.execs + 1 }, some v)
      | (.panicked m, env2) =>
          (.CY_ErrorPanic,
           { vm with env := env2, execs := vm.execs + 1, lastErrorReport := mkReport m }, none)
      | (.unknownErr m, env2) =>
          (.CY_ErrorUnknown,
           { vm with env := env2, execs := vm.execs + 1, lastErrorReport := mkReport m }, none)

/-- `cyVmGetLastErrorReport`: returns the VM's diagnostic buffer. -/
def cyVmGetLastErrorReport (vm : VMState) : List Nat := vm.lastErrorReport

/-- `cyVmAddModuleLoader` on the observable VM state: records the name. -/
def cyVmAddModuleLoader (vm : VMState) (name : List Nat) : VMState :=
  { vm with loaders := name :: vm.loaders }

/-- `cyVmRelease` on the observable VM state: discharges a release
obligation; it does not touch the diagnostic buffer or the environment. -/
def cyVmRelease (vm : VMState) (v : CyValue) : VMState := vm

/-- `cyVmAlloc` on the observable VM state: the allocator balance grows. -/
def cyVmAlloc (vm : VMState) (size : Nat) : VMState :=
  { vm with allocBytes := vm.allocBytes + size }

/-- `cyVmFree` on the observable VM state: the allocator balance shrinks. -/
def cyVmFree (vm : VMState) (size : Nat) : VMState :=
  { vm with allocBytes := vm.allocBytes - size }

/-- The boundary operations on one VM handle other than create/destroy. -/
inductive VMOp where
  | evalOp (src : List Nat)
  | getReportOp
  | releaseOp (v : CyValue)
  | addLoaderOp (name : List Nat)
  | allocOp (size : Nat)
  | freeOp (size : Nat)
deriving DecidableEq, Repr

/-- Whether a boundary operation is an eval (the only operation the spec
allows to overwrite the diagnostic buffer). -/
def VMOp.isEval : VMOp → Bool
  | .evalOp _ => true
  | _ => false

/-- One boundary operation applied to the observable VM state. -/
def vmStep (frontend : List Nat → FrontendResult)
    (exec : List (List Nat × CyValue) → List Nat → ExecOutcome × List (List Nat × CyValue))
    (vm : VMState) : VMOp → VMState
  | .evalOp src => (cyVmEval frontend exec vm src).2.1
  | .getReportOp => vm
  | .releaseOp v => cyVmRelease vm v
  | .addLoaderOp n => cyVmAddModuleLoader vm n
  | .allocOp s => cyVmAlloc vm s
  | .freeOp s => cyVmFree vm s

/-- Run a sequence of boundary operations on the observable VM state. -/
def runVMOps (frontend : List Nat → FrontendResult)
    (exec : List (List Nat × CyValue) → List Nat → ExecOutcome × List (List Nat × CyValue))
    (vm : VMState) : List VMOp → VMState
  | [] => vm
  | op :: ops => runVMOps frontend exec (vmStep frontend exec vm op) ops

/-- A concrete front end that rejects every source with a parse error, used
to witness the error-path theorems. -/
def feParseErr : List Nat → FrontendResult := fun _ => .parseErr [98, 97, 100]

/-- A concrete executor that returns value 0 and leaves the environment
unchanged, used to witness the error-path theorems. -/
def exId : List (List Nat × CyValue) → List Nat → ExecOutcome × List (List Nat × CyValue) :=
  fun e _ => (.value 0, e)

/-- A concrete VM state with one global binding, used in witnesses. -/
def vm0 : VMState := ⟨[([120], 10)], [], 0, [], 0⟩

/-- A concrete sequence of non-eval boundary operations, used in witnesses. -/
def opsNoEval : List VMOp :=
  [VMOp.getReportOp, VMOp.releaseOp 0, VMOp.allocOp 16, VMOp.freeOp 16,
   VMOp.addLoaderOp [109]]

/-- A concrete native-function invocation with three arguments. -/
def inv3 : CyFuncInvocation := ⟨[1, 2, 3], 3, by norm_num⟩

/-- A concrete module-function registration with declared arity 1000. -/
def reg1000 : ModuleFuncReg := ⟨[102], 1000, by norm_num⟩

/-! ### Helper lemmas -/

theorem strlen_get_eq_zero (X : List Nat) (h : 0 ∈ X) : X[strlen X]? = some 0 := by
  induction X with
  | nil => simp at h
  | cons b t ih =>
      by_cases hb : b = 0
      · simp [strlen, hb]
      · have ht : 0 ∈ t := by
          rcases List.mem_cons.mp h with h0 | h0
          · exact absurd h0.symm hb
          · exact h0
        simp [strlen, hb, ih ht]

theorem strlen_get_ne_zero (X : List Nat) (i : Nat) (h : i < strlen X) :
    X[i]? ≠ some 0 := by
  induction X generalizing i with
  | nil => simp [strlen] at h
  | cons b t ih =>
      by_cases hb : b = 0
      · simp [strlen, hb] at h
      · cases i with
        | zero => simpa using hb
        | succ j =>
            have hj : j < strlen t := by simpa [strlen, hb] using h
            simpa using ih j hj

theorem firedCount_append (n : List Nat) (a b : List MEvent) :
    firedCount n (a ++ b) = firedCount n a + firedCount n b := by
  induction a with
  | nil => simp [firedCount]
  | cons e t ih =>
      cases e with
      | loaderFired m => simp [firedCount, ih, Nat.add_assoc]
      | scriptAccess m => simp [firedCount, ih]

theorem mstep_addLoader_ev (st : List Nat → ModState) (m : List Nat) :
    (mstep st (MOp.addLoader m)).2 = [] := rfl

theorem mstep_addLoader_loaded_iff (st : List Nat → ModState) (m n : List Nat) :
    ((mstep st (MOp.addLoader m)).1 n = ModState.loaded) ↔ (st n = ModState.loaded) := by
  by_cases hc : n = m ∧ st m = ModState.unregistered
  · rcases hc with ⟨he, hu⟩
    subst he
    simp [mstep, hu]
  · simp [mstep, hc]

theorem mstep_import_unreg (st : List Nat → ModState) (m : List Nat)
    (hm : st m = ModState.unregistered) : mstep st (MOp.importMod m) = (st, []) := by
  simp [mstep, hm]

theorem mstep_import_reg (st : List Nat → ModState) (m : List Nat)
    (hm : st m = ModState.registered) :
    mstep st (MOp.importMod m) =
      (fun p => if p = m then ModState.loaded else st p,
       [MEvent.loaderFired m, MEvent.scriptAccess m]) := by
  simp [mstep, hm]

theorem mstep_import_loaded (st : List Nat → ModState) (m : List Nat)
    (hm : st m = ModState.loaded) :
    mstep st (MOp.importMod m) = (st, [MEvent.scriptAccess m]) := by
  simp [mstep, hm]

theorem runOps_fired_of_loaded (ops : List MOp) :
    ∀ (st : List Nat → ModState) (n : List Nat), st n = ModState.loaded →
      firedCount n (runOps st ops).2 = 0 := by
  induction ops with
  | nil => intro st n _; simp [runOps, firedCount]
  | cons op rest ih =>
      intro st n h
      cases op with
      | addLoader m =>
          have h1 : (mstep st (MOp.addLoader m)).1 n = ModState.loaded :=
            (mstep_addLoader_loaded_iff st m n).mpr h
          simp only [runOps, mstep_addLoader_ev, List.nil_append]
          exact ih _ n h1
      | importMod m =>
          cases hm : st m with
          | unregistered =>
              simp only [runOps, mstep_import_unreg st m hm, List.nil_append]
              exact ih st n h
          | registered =>
              have hnm : n ≠ m := fun he => by rw [he, hm] at h; exact absurd h (by simp)
              simp only [runOps, mstep_import_reg st m hm]
              have h1 : (fun p => if p = m then ModState.loaded else st p) n =
                  ModState.loaded := by simp [hnm, h]
              have := ih (fun p => if p = m then ModState.loaded else st p) n h1
              simp [firedCount_append, firedCount, Ne.symm hnm, this]
          | loaded =>
              simp only [runOps, mstep_import_loaded st m hm]
              have := ih st n h
              simp [firedCount_append, firedCount, this]

theorem runOps_fired_le_one (ops : List MOp) :
    ∀ (st : List Nat → ModState) (n : List Nat),
      firedCount n (runOps st ops).2 ≤ 1 := by
  induction ops with
  | nil => intro st n; simp [runOps, firedCount]
  | cons op rest ih =>
      intro st n
      cases op with
      | addLoader m =>
          simp only [runOps, mstep_addLoader_ev, List.nil_append]
          exact ih _ n
      | importMod m =>
          cases hm : st m with
          | unregistered =>
              simp only [runOps, mstep_import_unreg st m hm, List.nil_append]
              exact ih st n
          | registered =>
              simp only [runOps, mstep_import_reg st m hm]
              by_cases hnm : m = n
              · subst hnm
                have h1 : (fun p => if p = m then ModState.loaded else st p) m =
                    ModState.loaded := by simp
                have hz := runOps_fired_of_loaded rest
                  (fun p => if p = m then ModState.loaded else st p) m h1
                simp [firedCount_append, firedCount, hz]
              · have := ih (fun p => if p = m then ModState.loaded else st p) n
                simp [firedCount_append, firedCount, hnm, this]
          | loaded =>
              simp only [runOps, mstep_import_loaded st m hm]
              have := ih st n
              simp [firedCount_append, firedCount, this]

theorem runOps_accessOk (ops : List MOp) :
    ∀ (st : List Nat → ModState) (n : List Nat),
      accessOk n (if st n = ModState.loaded then true else false) (runOps st ops).2 = true := by
  induction ops with
  | nil => intro st n; simp [runOps, accessOk]
  | cons op rest ih =>
      intro st n
      cases op with
      | addLoader m =>
          have hcond : (if (mstep st (MOp.addLoader m)).1 n = ModState.loaded
                then true else false) =
              (if st n = ModState.loaded then true else false) := by
            by_cases hl : st n = ModState.loaded
            · simp [hl, (mstep_addLoader_loaded_iff st m n).mpr hl]
            · have hl1 : ¬ (mstep st (MOp.addLoader m)).1 n = ModState.loaded :=
                fun hc => hl ((mstep_addLoader_loaded_iff st m n).mp hc)
              simp [hl, hl1]
          have := ih (mstep st (MOp.addLoader m)).1 n
          rw [hcond] at this
          simp only [runOps, mstep_addLoader_ev, List.nil_append]
          exact this
      | importMod m =>
          cases hm : st m with
          | unregistered =>
              simp only [runOps, mstep_import_unreg st m hm, List.nil_append]
              exact ih st n
          | registered =>
              simp only [runOps, mstep_import_reg st m hm]
              by_cases hnm : m = n
              · subst hnm
                have := ih (fun p => if p = m then ModState.loaded else st p) m
                simp at this
                simpa [accessOk, hm] using this
              · have hnm2 : n ≠ m := Ne.symm hnm
                have := ih (fun p => if p = m then ModState.loaded else st p) n
                simp [hnm2] at this
                simpa [accessOk, hnm] using this
          | loaded =>
              simp only [runOps, mstep_import_loaded st m hm]
              have := ih st n
              by_cases hnm : m = n
              · subst hnm
                simp [accessOk, hm] at this ⊢
                exact this
              · simp [accessOk, hnm] at this ⊢
                exact this

theorem runVMOps_report_of_no_eval
    (frontend : List Nat → FrontendResult)
    (exec : List (List Nat × CyValue) → List Nat → ExecOutcome × List (List Nat × CyValue))
    (ops : List VMOp) :
    ∀ vm : VMState, (∀ op ∈ ops, op.isEval = false) →
      (runVMOps frontend exec vm ops).lastErrorReport = vm.lastErrorReport := by
  induction ops with
  | nil => intro vm _; rfl
  | cons op rest ih =>
      intro vm h
      have hop := h op (by simp)
      have hrest : ∀ o ∈ rest, o.isEval = false := fun o ho => h o (by simp [ho])
      cases op with
      | evalOp s => simp [VMOp.isEval] at hop
      | getReportOp =>
          simp only [runVMOps, vmStep]
          exact ih vm hrest
      | releaseOp v =>
          simp only [runVMOps, vmStep, cyVmRelease]
          exact ih vm hrest
      | addLoaderOp nm =>
          simp only [runVMOps, vmStep, cyVmAddModuleLoader]
          rw [ih _ hrest]
      | allocOp s =>
          simp only [runVMOps, vmStep, cyVmAlloc]
          rw [ih _ hrest]
      | freeOp s =>
          simp only [runVMOps, vmStep, cyVmFree]
          rw [ih _ hrest]

/-! ### Claim theorems -/

/-- Claim C1: for every finite double bit pattern d,
`cyValueAsDouble (cyValueNumber d)` returns d bit-exactly, and the same
round-trip holds for positive infinity, negative infinity, and the
canonical quiet NaN. -/
theorem cyValueNumber_roundtrip :
    (∀ d : Nat, isFiniteDouble d → cyValueAsDouble (cyValueNumber d) = d) ∧
    cyValueAsDouble (cyValueNumber posInfBits) = posInfBits ∧
    cyValueAsDouble (cyValueNumber negInfBits) = negInfBits ∧
    cyValueAsDouble (cyValueNumber canonicalQNaNBits) = canonicalQNaNBits := by
  refine ⟨?_, by decide, by decide, by decide⟩
  intro d hd
  have h1 : d % 2 ^ 64 = d := Nat.mod_eq_of_lt hd.1
  show d % 2 ^ 64 % 2 ^ 64 = d
  rw [h1, h1]

/-- Witness for Claim C1: the bit pattern of the double 3.0 is finite and
round-trips through the number constructor and accessor. -/
theorem cyValueNumber_roundtrip_witness :
    isFiniteDouble 0x4008000000000000 ∧
    cyValueAsDouble (cyValueNumber 0x4008000000000000) = 0x4008000000000000 :=
  ⟨by decide, cyValueNumber_roundtrip.1 0x4008000000000000 (by decide)⟩

/-- Claim C2: `CyResultCode` is a closed enumeration of exactly six members
with numeric values CY_Success = 0, CY_ErrorToken = 1, CY_ErrorParse = 2,
CY_ErrorCompile = 3, CY_ErrorPanic = 4, CY_ErrorUnknown = 5, and success is
distinguished by equality with zero. -/
theorem resultCode_enumeration :
    (CyResultCode.toC CyResultCode.CY_Success = 0 ∧
     CyResultCode.toC CyResultCode.CY_ErrorToken = 1 ∧
     CyResultCode.toC CyResultCode.CY_ErrorParse = 2 ∧
     CyResultCode.toC CyResultCode.CY_ErrorCompile = 3 ∧
     CyResultCode.toC CyResultCode.CY_ErrorPanic = 4 ∧
     CyResultCode.toC CyResultCode.CY_ErrorUnknown = 5) ∧
    Fintype.card CyResultCode = 6 ∧
    (∀ c : CyResultCode, CyResultCode.toC c = 0 ↔ c = CyResultCode.CY_Success) := by
  refine ⟨by decide, by decide, by decide⟩

/-- Claim C3: on a fresh VM (all module names unregistered), along any
sequence of registrar operations the loader callback of each module name
fires at most once, and every script-level access of a module is strictly
preceded in the event trace by that module's loader invocation. -/
theorem moduleLoader_once_before_access (ops : List MOp) (n : List Nat) :
    firedCount n (runOps (fun _ => ModState.unregistered) ops).2 ≤ 1 ∧
    accessOk n false (runOps (fun _ => ModState.unregistered) ops).2 = true := by
  refine ⟨runOps_fired_le_one ops (fun _ => ModState.unregistered) n, ?_⟩
  have h := runOps_accessOk ops (fun _ => ModState.unregistered) n
  simpa using h

/-- Claim C4: whenever `cyVmEval` returns CY_ErrorToken, CY_ErrorParse or
CY_ErrorCompile, the source was rejected before any execution began (the
execution counter is unchanged) and the persistent global environment is
exactly as before the call. -/
theorem cyVmEval_static_error_atomic
    (frontend : List Nat → FrontendResult)
    (exec : List (List Nat × CyValue) → List Nat → ExecOutcome × List (List Nat × CyValue))
    (vm : VMState) (src : List Nat)
    (h : (cyVmEval frontend exec vm src).1 = CyResultCode.CY_ErrorToken ∨
         (cyVmEval frontend exec vm src).1 = CyResultCode.CY_ErrorParse ∨
         (cyVmEval frontend exec vm src).1 = CyResultCode.CY_ErrorCompile) :
    (cyVmEval frontend exec vm src).2.1.env = vm.env ∧
    (cyVmEval frontend exec vm src).2.1.execs = vm.execs := by
  cases hf : frontend src with
  | tokenErr m => simp [cyVmEval, hf]
  | parseErr m => simp [cyVmEval, hf]
  | compileErr m => simp [cyVmEval, hf]
  | prog p =>
      exfalso
      rcases hx : exec vm.env p with ⟨o, env2⟩
      cases o <;> simp [cyVmEval, hf, hx] at h

/-- Witness for Claim C4: a front end that rejects "1 +" with a parse error
leaves the concrete VM state's environment and execution count unchanged. -/
theorem cyVmEval_static_error_atomic_witness :
    (cyVmEval feParseErr exId vm0 [49, 32, 43]).2.1.env = vm0.env ∧
    (cyVmEval feParseErr exId vm0 [49, 32, 43]).2.1.execs = vm0.execs :=
  cyVmEval_static_error_atomic feParseErr exId vm0 [49, 32, 43] (Or.inr (Or.inl rfl))

/-- Claim C5: after any `cyVmEval` returning a non-success code, the error
report is a non-empty string, and it is preserved by every subsequent
sequence of boundary operations that contains no eval. -/
theorem errorReport_nonempty_until_next_eval
    (frontend : List Nat → FrontendResult)
    (exec : List (List Nat × CyValue) → List Nat → ExecOutcome × List (List Nat × CyValue))
    (vm : VMState) (src : List Nat)
    (h : (cyVmEval frontend exec vm src).1 ≠ CyResultCode.CY_Success) :
    cyVmGetLastErrorReport (cyVmEval frontend exec vm src).2.1 ≠ [] ∧
    ∀ ops : List VMOp, (∀ op ∈ ops, op.isEval = false) →
      cyVmGetLastErrorReport
          (runVMOps frontend exec (cyVmEval frontend exec vm src).2.1 ops) =
        cyVmGetLastErrorReport (cyVmEval frontend exec vm src).2.1 := by
  constructor
  · cases hf : frontend src with
    | tokenErr m => simp [cyVmEval, hf, cyVmGetLastErrorReport, mkReport]
    | parseErr m => simp [cyVmEval, hf, cyVmGetLastErrorReport, mkReport]
    | compileErr m => simp [cyVmEval, hf, cyVmGetLastErrorReport, mkReport]
    | prog p =>
        rcases hx : exec vm.env p with ⟨o, env2⟩
        cases o with
        | value v => exfalso; simp [cyVmEval, hf, hx] at h
        | panicked m => simp [cyVmEval, hf, hx, cyVmGetLastErrorReport, mkReport]
        | unknownErr m => simp [cyVmEval, hf, hx, cyVmGetLastErrorReport, mkReport]
  · intro ops hops
    exact runVMOps_report_of_no_eval frontend exec ops _ hops

/-- Witness for Claim C5: after a concrete failing eval, the report is
non-empty and survives a concrete sequence of non-eval operations. -/
theorem errorReport_nonempty_until_next_eval_witness :
    cyVmGetLastErrorReport (cyVmEval feParseErr exId vm0 [49, 32, 43]).2.1 ≠ [] ∧
    cyVmGetLastErrorReport
        (runVMOps feParseErr exId (cyVmEval feParseErr exId vm0 [49, 32, 43]).2.1 opsNoEval) =
      cyVmGetLastErrorReport (cyVmEval feParseErr exId vm0 [49, 32, 43]).2.1 := by
  have h := errorReport_nonempty_until_next_eval feParseErr exId vm0 [49, 32, 43] (by decide)
  exact ⟨h.1, h.2 opsNoEval (by decide)⟩

/-- Claim C6: the three primitive constructors yield pairwise bit-distinct
64-bit values. -/
theorem primitiveValues_pairwise_distinct :
    cyValueNone ≠ cyValueTrue ∧ cyValueNone ≠ cyValueFalse ∧
    cyValueTrue ≠ cyValueFalse := by
  refine ⟨by decide, by decide, by decide⟩

/-- Claim C7: every tagged value produced at the boundary fits in exactly
64 bits (`typedef uint64_t CyValue`): each primitive constructor's output
and every number constructor output is in the 64-bit range. -/
theorem cyValue_fits_64_bits :
    uint64Range cyValueNone ∧ uint64Range cyValueTrue ∧ uint64Range cyValueFalse ∧
    ∀ d : Nat, uint64Range (cyValueNumber d) := by
  refine ⟨by decide, by decide, by decide, ?_⟩
  intro d
  show cyValueNumber d < 2 ^ 64
  exact Nat.mod_lt _ (by norm_num)

/-- Claim C8: `CY_NullId` is the 32-bit all-ones pattern: it equals
0xFFFFFFFF, equals UINT32_MAX = 2^32 - 1, and is in the u32 range. -/
theorem nullId_is_u32_all_ones :
    CY_NullId = 0xFFFFFFFF ∧ CY_NullId = 2 ^ 32 - 1 ∧ uint32Range CY_NullId := by
  refine ⟨by decide, rfl, by decide⟩

/-- Claim C9: a native function receives its argument count as a uint8, so
every invocation observes at most 255 arguments, and a registration whose
declared uint32 arity exceeds 255 can never see an argument count equal to
that arity. -/
theorem nativeFunc_nargs_bounded (inv : CyFuncInvocation) (reg : ModuleFuncReg)
    (h : 255 < reg.numParams) : inv.nargs ≤ 255 ∧ inv.nargs ≠ reg.numParams := by
  have h8 : inv.nargs < 256 := by
    have h0 := inv.nargs_uint8
    norm_num at h0
    exact h0
  omega

/-- Witness for Claim C9: a concrete 3-argument invocation against a
registration of declared arity 1000. -/
theorem nativeFunc_nargs_bounded_witness :
    inv3.nargs ≤ 255 ∧ inv3.nargs ≠ reg1000.numParams :=
  nativeFunc_nargs_bounded inv3 reg1000 (by norm_num [reg1000])

/-- Claim C10: for every NUL-terminated buffer X, `cstr X` has length
`strlen X`, the byte at index len is the NUL terminator, and no byte below
len is NUL (the length excludes the terminating NUL). -/
theorem cstr_len_is_strlen (X : List Nat) (h : 0 ∈ X) :
    (cstr X).len = strlen X ∧
    (cstr X).charz[(cstr X).len]? = some 0 ∧
    ∀ i : Nat, i < (cstr X).len → (cstr X).charz[i]? ≠ some 0 := by
  refine ⟨rfl, ?_, ?_⟩
  · simpa [cstr] using strlen_get_eq_zero X h
  · intro i hi
    have hi2 : i < strlen X := by simpa [cstr] using hi
    simpa [cstr] using strlen_get_ne_zero X i hi2

/-- Witness for Claim C10: the buffer "hi\0" has length 2 with the NUL at
index 2. -/
theorem cstr_len_is_strlen_witness :
    0 ∈ [104, 105, 0] ∧ (cstr [104, 105, 0]).charz[(cstr [104, 105, 0]).len]? = some 0 :=
  ⟨by decide, (cstr_len_is_strlen [104, 105, 0] (by decide)).2.1⟩

end Cyber
